import Mathlib

/-!
Verification of `aus_senate_audit/senate_election.py` (class `SenateElection`).

The Python class is embedded shallowly:

* Python's `collections.Counter` is modelled by `Counter`: an insertion-ordered
  association list from ballot types to (unbounded) integers.  Lookup of a
  missing key returns `0` and — unlike `defaultdict` — does *not* insert the
  key (CPython's `Counter.__missing__` just returns `0`); this is captured by
  `Counter.getitem`, which returns the value together with the (unchanged)
  counter.  `c[k] += w` is modelled by `Counter.incr`, which updates the entry
  in place when the key is present and appends a new entry (even at weight `0`)
  when it is absent, exactly as the Python statement does.
* The Python `set` field `_ballots` is modelled by a duplicate-free list with
  `pySetAdd` as `set.add`.
* Python integers are unbounded, so all numeric fields are `Int`.
* `raise NotImplementedError` is modelled by `Except PyError`, the `raise`
  happening before any state change.
* Ballot types are opaque hashable values: the embedding is parametric in a
  type `α` with decidable equality.  Candidates and candidate ids are opaque
  as well; their lists start empty and are never touched by the methods under
  study, so their element type is fixed to `String` for concreteness.

The methods of the class become functions on the `SenateElection` structure,
and the externally visible behaviour of an arbitrary call sequence is given by
the step function `runOp` / `run` over the operation alphabet `Op`.
-/

namespace AusSenateAudit

variable {α : Type} [DecidableEq α]

/-- Errors the Python code can raise in this module: only `NotImplementedError`,
from the abstract methods `draw_ballots` and `get_outcome`. -/
inductive PyError where
  | notImplementedError
deriving DecidableEq

/-- Model of `collections.Counter` as used by `senate_election.py`: an insertion-ordered
association list from keys to integer counts. -/
structure Counter (α : Type) where
  entries : List (α × Int)

/-- First-occurrence lookup in an association list (Python dict lookup; keys of
a dict are unique, so first occurrence is the occurrence). -/
def lookupKey (k : α) : List (α × Int) → Option Int
  | [] => none
  | p :: rest => if p.1 = k then some p.2 else lookupKey k rest

/-- The value of key `k` in the counter, defaulting to `0` when absent
(`Counter.__missing__`). -/
def Counter.get (c : Counter α) (k : α) : Int :=
  match lookupKey k c.entries with
  | some v => v
  | none => 0

/-- Reading `c[k]` on a `Counter`: returns the stored value, or `0` via `__missing__`
when the key is absent.  The counter itself is returned unchanged in both
branches — a missing-key lookup does not insert the key. -/
def Counter.getitem (c : Counter α) (k : α) : Int × Counter α :=
  match lookupKey k c.entries with
  | some v => (v, c)
  | none => (0, c)

/-- Add `w` to the value stored at the first entry with key `k`, leaving the
rest of the list unchanged. -/
def updateKey (k : α) (w : Int) : List (α × Int) → List (α × Int)
  | [] => []
  | p :: rest => if p.1 = k then (p.1, p.2 + w) :: rest else p :: updateKey k w rest

/-- Incrementing `c[k] += w` on a `Counter`: if `k` is present its value is increased by `w`
in place; otherwise a fresh entry `(k, w)` is appended (so `c[k] += 0` on a
missing key inserts the key with value `0`, as in Python). -/
def Counter.incr (c : Counter α) (k : α) (w : Int) : Counter α :=
  match lookupKey k c.entries with
  | some _ => ⟨updateKey k w c.entries⟩
  | none => ⟨c.entries ++ [(k, w)]⟩

/-- The keys of the counter, in insertion order. -/
def Counter.keys (c : Counter α) : List α :=
  c.entries.map Prod.fst

/-- The sum of all values stored in the counter
(`sum(ballot_weights.values())`). -/
def weightSum (c : Counter α) : Int :=
  (c.entries.map Prod.snd).sum

/-- Python `set.add`: append the element unless it is already present. -/
def pySetAdd (l : List α) (x : α) : List α :=
  if x ∈ l then l else l ++ [x]

/-- The state of a `SenateElection` object: one field per Python instance
attribute (`_n`, `_m`, `_seats`, `_ballots_drawn`, `_ballots`,
`_ballot_weights`, `_candidates`, `_candidate_ids`, `_election_id`,
`_type`). -/
structure SenateElection (α : Type) where
  n : Int
  m : Int
  seats : Int
  ballots_drawn : Int
  ballots : List α
  ballot_weights : Counter α
  candidates : List String
  candidate_ids : List String
  election_id : Option String
  type_ : Option String

/-- The class attribute `SenateElection.TYPE`, which is `None` on the base
class. -/
def SenateElection.TYPE : Option String := none

/-- Constructor `SenateElection.__init__`: zeroed counters, empty set, empty `Counter`,
empty rosters, `_election_id = None`, `_type = self.__class__.TYPE`. -/
def SenateElection.init (α : Type) : SenateElection α :=
  { n := 0
    m := 0
    seats := 0
    ballots_drawn := 0
    ballots := []
    ballot_weights := ⟨[]⟩
    candidates := []
    candidate_ids := []
    election_id := none
    type_ := SenateElection.TYPE }

/-- Method `get_num_cast_ballots`: returns `self._n`. -/
def SenateElection.get_num_cast_ballots (s : SenateElection α) : Int :=
  s.n

/-- Method `get_num_seats`: returns `self._seats`. -/
def SenateElection.get_num_seats (s : SenateElection α) : Int :=
  s.seats

/-- Method `get_num_ballots_drawn`: returns `self._ballots_drawn`. -/
def SenateElection.get_num_ballots_drawn (s : SenateElection α) : Int :=
  s.ballots_drawn

/-- Method `get_ballots`: returns `self._ballots`. -/
def SenateElection.get_ballots (s : SenateElection α) : List α :=
  s.ballots

/-- Method `get_weight_of_ballot`: returns `self._ballot_weights[ballot]` together
with the object state after the call (the `Counter` lookup never inserts). -/
def SenateElection.get_weight_of_ballot (s : SenateElection α) (ballot : α) :
    Int × SenateElection α :=
  let r := s.ballot_weights.getitem ballot
  (r.1, { s with ballot_weights := r.2 })

/-- Method `get_candidates`: returns `self._candidates`. -/
def SenateElection.get_candidates (s : SenateElection α) : List String :=
  s.candidates

/-- Method `get_candidate_ids`: returns `self._candidate_ids`. -/
def SenateElection.get_candidate_ids (s : SenateElection α) : List String :=
  s.candidate_ids

/-- Method `get_election_id`: returns `self._election_id`. -/
def SenateElection.get_election_id (s : SenateElection α) : Option String :=
  s.election_id

/-- Method `get_type`: returns `self._type`. -/
def SenateElection.get_type (s : SenateElection α) : Option String :=
  s.type_

/-- Method `add_ballot(ballot, weight)`: `self._ballots.add(ballot)`;
`self._ballot_weights[ballot] += weight`; `self._ballots_drawn += weight`.
No validation of `weight` is performed. -/
def SenateElection.add_ballot (s : SenateElection α) (ballot : α) (weight : Int) :
    SenateElection α :=
  { s with
    ballots := pySetAdd s.ballots ballot
    ballot_weights := s.ballot_weights.incr ballot weight
    ballots_drawn := s.ballots_drawn + weight }

/-- Method `draw_ballots`: `raise NotImplementedError` on the base class. -/
def SenateElection.draw_ballots (s : SenateElection α) :
    Except PyError (SenateElection α) :=
  Except.error PyError.notImplementedError

/-- Method `get_outcome(ballot_weights)`: `raise NotImplementedError` on the base
class. -/
def SenateElection.get_outcome (s : SenateElection α)
    (ballot_weights : Counter α) : Except PyError (List String) :=
  Except.error PyError.notImplementedError

/-- The alphabet of method calls on a `SenateElection` object. -/
inductive Op (α : Type) where
  | addBallot (ballot : α) (weight : Int)
  | drawBallots
  | getOutcome (ballot_weights : Counter α)
  | getNumCastBallots
  | getNumSeats
  | getNumBallotsDrawn
  | getBallots
  | getWeightOfBallot (ballot : α)
  | getCandidates
  | getCandidateIds
  | getElectionId
  | getType

/-- The value a method call produces (or the error it raises). -/
inductive OpResult (α : Type) where
  | unit
  | int (i : Int)
  | ballotList (l : List α)
  | strList (l : List String)
  | optStr (s : Option String)
  | raised (e : PyError)

/-- One method call: the result it returns (or raises) and the object state
afterwards.  A raised error leaves the state unchanged, as in Python. -/
def runOp (s : SenateElection α) : Op α → OpResult α × SenateElection α
  | Op.addBallot b w => (OpResult.unit, s.add_ballot b w)
  | Op.drawBallots =>
      match s.draw_ballots with
      | Except.error e => (OpResult.raised e, s)
      | Except.ok s2 => (OpResult.unit, s2)
  | Op.getOutcome bw =>
      match s.get_outcome bw with
      | Except.error e => (OpResult.raised e, s)
      | Except.ok ids => (OpResult.strList ids, s)
  | Op.getNumCastBallots => (OpResult.int s.get_num_cast_ballots, s)
  | Op.getNumSeats => (OpResult.int s.get_num_seats, s)
  | Op.getNumBallotsDrawn => (OpResult.int s.get_num_ballots_drawn, s)
  | Op.getBallots => (OpResult.ballotList s.get_ballots, s)
  | Op.getWeightOfBallot b =>
      (OpResult.int (s.get_weight_of_ballot b).1, (s.get_weight_of_ballot b).2)
  | Op.getCandidates => (OpResult.strList s.get_candidates, s)
  | Op.getCandidateIds => (OpResult.strList s.get_candidate_ids, s)
  | Op.getElectionId => (OpResult.optStr s.get_election_id, s)
  | Op.getType => (OpResult.optStr s.get_type, s)

/-- Run a sequence of method calls from a given state, discarding results. -/
def run (s : SenateElection α) : List (Op α) → SenateElection α
  | [] => s
  | op :: ops => run (runOp s op).2 ops

/-- Run a sequence of `add_ballot(ballot, weight)` calls. -/
def runAdds (s : SenateElection α) : List (α × Int) → SenateElection α
  | [] => s
  | p :: ps => runAdds (s.add_ballot p.1 p.2) ps

/-- An operation is an `add_ballot` call. -/
def Op.isAddBallot : Op α → Bool
  | Op.addBallot _ _ => true
  | _ => false

/-- An operation is one of the getters. -/
def Op.isGetter : Op α → Bool
  | Op.getNumCastBallots => true
  | Op.getNumSeats => true
  | Op.getNumBallotsDrawn => true
  | Op.getBallots => true
  | Op.getWeightOfBallot _ => true
  | Op.getCandidates => true
  | Op.getCandidateIds => true
  | Op.getElectionId => true
  | Op.getType => true
  | _ => false

/-- Precondition of the spec: any `add_ballot` call uses a strictly positive
weight; every other operation is unconstrained. -/
def Op.posWeight : Op α → Prop
  | Op.addBallot _ w => 0 < w
  | _ => True

instance (op : Op α) : Decidable op.posWeight :=
  match op with
  | Op.addBallot _ w => inferInstanceAs (Decidable (0 < w))
  | Op.drawBallots => inferInstanceAs (Decidable True)
  | Op.getOutcome _ => inferInstanceAs (Decidable True)
  | Op.getNumCastBallots => inferInstanceAs (Decidable True)
  | Op.getNumSeats => inferInstanceAs (Decidable True)
  | Op.getNumBallotsDrawn => inferInstanceAs (Decidable True)
  | Op.getBallots => inferInstanceAs (Decidable True)
  | Op.getWeightOfBallot _ => inferInstanceAs (Decidable True)
  | Op.getCandidates => inferInstanceAs (Decidable True)
  | Op.getCandidateIds => inferInstanceAs (Decidable True)
  | Op.getElectionId => inferInstanceAs (Decidable True)
  | Op.getType => inferInstanceAs (Decidable True)

/-- The state invariant of §3 of the spec: the drawn total equals the sum of
the stored weights, the drawn-ballot set has exactly the keys of the weight
mapping, and every stored weight is strictly positive. -/
def Inv (s : SenateElection α) : Prop :=
  s.ballots_drawn = weightSum s.ballot_weights
  ∧ (∀ x : α, x ∈ s.ballots ↔ x ∈ s.ballot_weights.keys)
  ∧ (∀ p ∈ s.ballot_weights.entries, 0 < p.2)

/-! ### Lemmas about the `Counter` and `set` models -/

lemma mem_pySetAdd (l : List α) (a x : α) :
    x ∈ pySetAdd l a ↔ x ∈ l ∨ x = a := by
  unfold pySetAdd
  by_cases h : a ∈ l
  · rw [if_pos h]
    constructor
    · exact Or.inl
    · rintro (hx | rfl)
      · exact hx
      · exact h
  · rw [if_neg h]
    simp [List.mem_append]

lemma lookupKey_isSome_iff (k : α) (l : List (α × Int)) :
    (lookupKey k l).isSome ↔ k ∈ l.map Prod.fst := by
  induction l with
  | nil => simp [lookupKey]
  | cons p rest ih =>
    by_cases h : p.1 = k
    · subst h
      simp [lookupKey]
    · simp only [lookupKey, if_neg h, List.map_cons, List.mem_cons, ih]
      constructor
      · exact Or.inr
      · rintro (rfl | hk)
        · exact absurd rfl h
        · exact hk

lemma lookupKey_append (k : α) (l m : List (α × Int)) :
    lookupKey k (l ++ m) =
      match lookupKey k l with
      | some v => some v
      | none => lookupKey k m := by
  induction l with
  | nil => simp [lookupKey]
  | cons p rest ih =>
    by_cases h : p.1 = k
    · simp [lookupKey, if_pos h]
    · simpa [lookupKey, if_neg h] using ih

lemma map_fst_updateKey (k : α) (w : Int) (l : List (α × Int)) :
    (updateKey k w l).map Prod.fst = l.map Prod.fst := by
  induction l with
  | nil => rfl
  | cons p rest ih =>
    by_cases h : p.1 = k
    · simp [updateKey, if_pos h]
    · simp [updateKey, if_neg h, ih]

lemma lookupKey_updateKey (k b : α) (w : Int) (l : List (α × Int)) :
    lookupKey b (updateKey k w l) =
      if b = k then Option.map (fun v => v + w) (lookupKey b l)
      else lookupKey b l := by
  induction l with
  | nil =>
    by_cases h : b = k <;> simp [updateKey, lookupKey, h]
  | cons p rest ih =>
    by_cases hpk : p.1 = k
    · subst hpk
      by_cases hb : b = p.1
      · subst hb
        simp [updateKey, lookupKey]
      · have hb2 : ¬ p.1 = b := fun hh => hb hh.symm
        simp [updateKey, lookupKey, if_neg hb2, if_neg hb]
    · by_cases hpb : p.1 = b
      · subst hpb
        have hb : ¬ p.1 = k := hpk
        simp [updateKey, lookupKey, if_neg hb, if_neg hb]
      · simp [updateKey, lookupKey, if_neg hpk, if_neg hpb, ih]

lemma sum_updateKey (k : α) (w : Int) (l : List (α × Int))
    (h : (lookupKey k l).isSome) :
    ((updateKey k w l).map Prod.snd).sum = (l.map Prod.snd).sum + w := by
  induction l with
  | nil => simp [lookupKey] at h
  | cons p rest ih =>
    by_cases hpk : p.1 = k
    · simp [updateKey, if_pos hpk, List.map_cons, List.sum_cons]
      ring
    · have h2 : (lookupKey k rest).isSome := by
        simpa [lookupKey, if_neg hpk] using h
      simp [updateKey, if_neg hpk, List.map_cons, List.sum_cons, ih h2]
      ring

lemma updateKey_pos (k : α) (w : Int) (l : List (α × Int))
    (hw : 0 < w) (h : ∀ p ∈ l, 0 < p.2) :
    ∀ p ∈ updateKey k w l, 0 < p.2 := by
  induction l with
  | nil => simp [updateKey]
  | cons q rest ih =>
    by_cases hqk : q.1 = k
    · simp only [updateKey, if_pos hqk]
      intro p hp
      rcases List.mem_cons.1 hp with rfl | hp2
      · have : 0 < q.2 := h q (List.mem_cons_self _ _)
        exact add_pos this hw
      · exact h p (List.mem_cons_of_mem _ hp2)
    · simp only [updateKey, if_neg hqk]
      intro p hp
      rcases List.mem_cons.1 hp with rfl | hp2
      · exact h p (List.mem_cons_self _ _)
      · exact ih (fun q2 hq2 => h q2 (List.mem_cons_of_mem _ hq2)) p hp2

/-! ### Lemmas about `Counter.get`, `Counter.incr` and `Counter.getitem` -/

lemma Counter.getitem_eq (c : Counter α) (k : α) :
    c.getitem k = (c.get k, c) := by
  unfold Counter.getitem Counter.get
  cases lookupKey k c.entries <;> rfl

lemma Counter.get_incr (c : Counter α) (k b : α) (w : Int) :
    (c.incr k w).get b = if b = k then c.get b + w else c.get b := by
  unfold Counter.incr
  rcases hk : lookupKey k c.entries with _ | v
  · unfold Counter.get
    simp only [lookupKey_append]
    by_cases hb : b = k
    · subst hb
      rw [hk]
      simp [lookupKey]
    · rcases hb2 : lookupKey b c.entries with _ | u
      · have hkb : ¬ k = b := fun hh => hb hh.symm
        simp [lookupKey, if_neg hkb, if_neg hb]
      · simp [if_neg hb]
  · unfold Counter.get
    rw [lookupKey_updateKey]
    by_cases hb : b = k
    · subst hb
      simp [hk]
    · rw [if_neg hb, if_neg hb]

lemma weightSum_incr (c : Counter α) (k : α) (w : Int) :
    weightSum (c.incr k w) = weightSum c + w := by
  unfold Counter.incr
  rcases hk : lookupKey k c.entries with _ | v
  · unfold weightSum
    simp [List.map_append, List.sum_append]
  · unfold weightSum
    exact sum_updateKey k w c.entries (by rw [hk]; rfl)

lemma mem_keys_incr (c : Counter α) (k b : α) (w : Int) :
    b ∈ (c.incr k w).keys ↔ b ∈ c.keys ∨ b = k := by
  unfold Counter.incr
  rcases hk : lookupKey k c.entries with _ | v
  · unfold Counter.keys
    simp [List.map_append]
  · have hmem : k ∈ c.entries.map Prod.fst := by
      rw [← lookupKey_isSome_iff, hk]
      rfl
    unfold Counter.keys
    rw [map_fst_updateKey]
    constructor
    · exact Or.inl
    · rintro (hb | rfl)
      · exact hb
      · exact hmem

lemma incr_entries_pos (c : Counter α) (k : α) (w : Int) (hw : 0 < w)
    (h : ∀ p ∈ c.entries, 0 < p.2) :
    ∀ p ∈ (c.incr k w).entries, 0 < p.2 := by
  unfold Counter.incr
  rcases hk : lookupKey k c.entries with _ | v
  · intro p hp
    rcases List.mem_append.1 hp with hp2 | hp2
    · exact h p hp2
    · rcases List.mem_singleton.1 hp2 with rfl
      exact hw
  · exact updateKey_pos k w c.entries hw h

/-! ### Lemmas about the `SenateElection` methods and the step function -/

lemma get_weight_fst (s : SenateElection α) (b : α) :
    (s.get_weight_of_ballot b).1 = s.ballot_weights.get b := by
  simp [SenateElection.get_weight_of_ballot, Counter.getitem_eq]

lemma get_weight_snd (s : SenateElection α) (b : α) :
    (s.get_weight_of_ballot b).2 = s := by
  simp [SenateElection.get_weight_of_ballot, Counter.getitem_eq]

lemma runOp_snd_of_not_add (s : SenateElection α) (op : Op α)
    (h : op.isAddBallot = false) : (runOp s op).2 = s := by
  cases op with
  | addBallot b w => simp [Op.isAddBallot] at h
  | getWeightOfBallot b => exact get_weight_snd s b
  | drawBallots => rfl
  | getOutcome bw => rfl
  | getNumCastBallots => rfl
  | getNumSeats => rfl
  | getNumBallotsDrawn => rfl
  | getBallots => rfl
  | getCandidates => rfl
  | getCandidateIds => rfl
  | getElectionId => rfl
  | getType => rfl

lemma runAdds_ballots_drawn (ps : List (α × Int)) (s : SenateElection α) :
    (runAdds s ps).ballots_drawn = s.ballots_drawn + (ps.map Prod.snd).sum := by
  induction ps generalizing s with
  | nil => simp [runAdds]
  | cons p ps ih =>
    rw [runAdds, ih]
    show s.ballots_drawn + p.2 + (ps.map Prod.snd).sum = _
    simp [add_assoc]

lemma runAdds_get (ps : List (α × Int)) (s : SenateElection α) (b : α) :
    (runAdds s ps).ballot_weights.get b
      = s.ballot_weights.get b
        + ((ps.filter fun p => decide (p.1 = b)).map Prod.snd).sum := by
  induction ps generalizing s with
  | nil => simp [runAdds]
  | cons p ps ih =>
    rw [runAdds, ih]
    have hbw : (s.add_ballot p.1 p.2).ballot_weights
        = s.ballot_weights.incr p.1 p.2 := rfl
    rw [hbw, Counter.get_incr]
    by_cases hb : p.1 = b
    · subst hb
      rw [if_pos rfl]
      simp [List.filter_cons, add_assoc]
    · have hb2 : ¬ b = p.1 := fun hh => hb hh.symm
      rw [if_neg hb2]
      simp [List.filter_cons, hb]

lemma runAdds_mem_ballots (ps : List (α × Int)) (s : SenateElection α) (x : α) :
    x ∈ (runAdds s ps).ballots ↔ x ∈ s.ballots ∨ x ∈ ps.map Prod.fst := by
  induction ps generalizing s with
  | nil => simp [runAdds]
  | cons p ps ih =>
    rw [runAdds, ih]
    have hb : (s.add_ballot p.1 p.2).ballots = pySetAdd s.ballots p.1 := rfl
    rw [hb, mem_pySetAdd]
    simp only [List.map_cons, List.mem_cons]
    tauto

lemma inv_init : Inv (SenateElection.init α) := by
  refine ⟨rfl, ?_, ?_⟩
  · intro x
    simp [SenateElection.init, Counter.keys]
  · intro p hp
    simp [SenateElection.init] at hp

lemma inv_add_ballot (s : SenateElection α) (b : α) (w : Int)
    (hw : 0 < w) (h : Inv s) : Inv (s.add_ballot b w) := by
  obtain ⟨h1, h2, h3⟩ := h
  refine ⟨?_, ?_, ?_⟩
  · show s.ballots_drawn + w = weightSum (s.ballot_weights.incr b w)
    rw [weightSum_incr, h1]
  · intro x
    show x ∈ pySetAdd s.ballots b ↔ x ∈ (s.ballot_weights.incr b w).keys
    rw [mem_pySetAdd, mem_keys_incr, h2 x]
  · exact incr_entries_pos s.ballot_weights b w hw h3

lemma inv_runOp (s : SenateElection α) (op : Op α)
    (hop : op.posWeight) (h : Inv s) : Inv (runOp s op).2 := by
  cases op
  case addBallot b w => exact inv_add_ballot s b w hop h
  case getWeightOfBallot b =>
    have hs2 : (runOp s (Op.getWeightOfBallot b)).2 = s := get_weight_snd s b
    rw [hs2]
    exact h
  all_goals exact h

lemma inv_run (ops : List (Op α)) (s : SenateElection α)
    (h : ∀ op ∈ ops, op.posWeight) (hs : Inv s) : Inv (run s ops) := by
  induction ops generalizing s with
  | nil => exact hs
  | cons op ops ih =>
    rw [run]
    exact ih _ (fun o ho => h o (List.mem_cons_of_mem _ ho))
      (inv_runOp s op (h op (List.mem_cons_self _ _)) hs)

lemma drawn_le_run (ops : List (Op α)) (s : SenateElection α)
    (h : ∀ op ∈ ops, op.posWeight) :
    s.ballots_drawn ≤ (run s ops).ballots_drawn := by
  induction ops generalizing s with
  | nil => exact le_rfl
  | cons op ops ih =>
    rw [run]
    have hstep : s.ballots_drawn ≤ (runOp s op).2.ballots_drawn := by
      cases op
      case addBallot b w =>
        have hw : 0 < w := h _ (List.mem_cons_self _ _)
        show s.ballots_drawn ≤ s.ballots_drawn + w
        omega
      all_goals exact le_rfl
    exact le_trans hstep (ih _ (fun o ho => h o (List.mem_cons_of_mem _ ho)))

/-! ### The claims -/

/-- C1: for every sequence of `add_ballot(ballot, w)` calls with each `w` a
positive integer, starting from a freshly constructed object, afterwards
`get_num_ballots_drawn()` returns the sum of all the `w` values passed, and for
every ballot type `b`, `get_weight_of_ballot(b)` returns the sum of exactly
those `w` values whose call passed ballot `b`. -/
theorem add_ballot_accounting (ps : List (α × Int))
    (hpos : ∀ p ∈ ps, 0 < p.2) :
    (runAdds (SenateElection.init α) ps).get_num_ballots_drawn
        = (ps.map Prod.snd).sum
    ∧ ∀ b : α, ((runAdds (SenateElection.init α) ps).get_weight_of_ballot b).1
        = ((ps.filter fun p => decide (p.1 = b)).map Prod.snd).sum := by
  constructor
  · show (runAdds (SenateElection.init α) ps).ballots_drawn = _
    rw [runAdds_ballots_drawn]
    show (0 : Int) + _ = _
    rw [zero_add]
  · intro b
    rw [get_weight_fst, runAdds_get]
    show (0 : Int) + _ = _
    rw [zero_add]

/-- Witness for C1: three calls, two of them for the same ballot type. -/
theorem add_ballot_accounting_witness :
    (∀ p ∈ [((1 : ℕ), (2 : Int)), (1, 3), (2, 5)], 0 < p.2)
    ∧ ((runAdds (SenateElection.init ℕ)
          [((1 : ℕ), (2 : Int)), (1, 3), (2, 5)]).get_num_ballots_drawn
        = ([((1 : ℕ), (2 : Int)), (1, 3), (2, 5)].map Prod.snd).sum
      ∧ ∀ b : ℕ, ((runAdds (SenateElection.init ℕ)
            [((1 : ℕ), (2 : Int)), (1, 3), (2, 5)]).get_weight_of_ballot b).1
          = (([((1 : ℕ), (2 : Int)), (1, 3), (2, 5)].filter
              fun p => decide (p.1 = b)).map Prod.snd).sum) :=
  ⟨by decide, add_ballot_accounting _ (by decide)⟩

/-- C2: after every sequence of operations whose `add_ballot` calls all use
strictly positive integer weights, the state invariant holds: the drawn-ballot
total equals the sum of all values in the per-type weight mapping, the set of
drawn ballot types equals the set of keys of the weight mapping, and every
stored weight is strictly positive. -/
theorem state_invariant_holds (ops : List (Op α))
    (hpos : ∀ op ∈ ops, op.posWeight) :
    Inv (run (SenateElection.init α) ops) :=
  inv_run ops (SenateElection.init α) hpos inv_init

/-- Witness for C2: an `add_ballot`, a missing-key weight lookup and a failing
`draw_ballots` call. -/
theorem state_invariant_holds_witness :
    (∀ op ∈ [Op.addBallot (1 : ℕ) 2, Op.getWeightOfBallot 3, Op.drawBallots],
      op.posWeight)
    ∧ Inv (run (SenateElection.init ℕ)
        [Op.addBallot (1 : ℕ) 2, Op.getWeightOfBallot 3, Op.drawBallots]) :=
  ⟨by decide, state_invariant_holds _ (by decide)⟩

/-- C3: for every sequence of `add_ballot` calls starting from a freshly
constructed object, `get_ballots()` returns exactly the set of distinct ballot
arguments passed to `add_ballot` so far (empty for a fresh object, the case
`ps = []`). -/
theorem get_ballots_eq_distinct_args (ps : List (α × Int)) (x : α) :
    x ∈ (runAdds (SenateElection.init α) ps).get_ballots
      ↔ x ∈ ps.map Prod.fst := by
  show x ∈ (runAdds (SenateElection.init α) ps).ballots ↔ _
  rw [runAdds_mem_ballots]
  simp [SenateElection.init]

/-- C4: for every ballot type `b` that was never passed to `add_ballot`,
`get_weight_of_ballot(b)` returns `0`.  The call cannot raise: in the
embedding `get_weight_of_ballot` is a total function (the `Counter` lookup
falls back to `0` via `Counter.getitem` instead of failing). -/
theorem get_weight_of_unseen_ballot_zero (ps : List (α × Int)) (b : α)
    (h : b ∉ ps.map Prod.fst) :
    ((runAdds (SenateElection.init α) ps).get_weight_of_ballot b).1 = 0 := by
  rw [get_weight_fst, runAdds_get]
  have hnil : (ps.filter fun p => decide (p.1 = b)) = [] := by
    rw [List.filter_eq_nil_iff]
    intro p hp
    simp only [decide_eq_true_eq]
    intro hpb
    exact h (hpb ▸ List.mem_map_of_mem Prod.fst hp)
  rw [hnil]
  rfl

/-- Witness for C4: ballot `0` was never added. -/
theorem get_weight_of_unseen_ballot_zero_witness :
    ((0 : ℕ) ∉ [((1 : ℕ), (2 : Int))].map Prod.fst)
    ∧ ((runAdds (SenateElection.init ℕ)
          [((1 : ℕ), (2 : Int))]).get_weight_of_ballot 0).1 = 0 :=
  ⟨by decide, get_weight_of_unseen_ballot_zero _ 0 (by decide)⟩

/-- C5: calling `draw_ballots()` or `get_outcome(ballot_weights)` on the base
`SenateElection` type raises `NotImplementedError`, for every state of the
object and every `ballot_weights` argument; the step function reports exactly
that raised error. -/
theorem abstract_methods_raise (s : SenateElection α) (bw : Counter α) :
    s.draw_ballots = Except.error PyError.notImplementedError
    ∧ s.get_outcome bw = Except.error PyError.notImplementedError
    ∧ (runOp s Op.drawBallots).1 = OpResult.raised PyError.notImplementedError
    ∧ (runOp s (Op.getOutcome bw)).1
        = OpResult.raised PyError.notImplementedError :=
  ⟨rfl, rfl, rfl, rfl⟩

/-- C6: the drawn-ballot weight total returned by `get_num_ballots_drawn` is a
non-negative integer after any positive-weight operation sequence from a fresh
object and never decreases across any step: every operation other than
`add_ballot` leaves it unchanged, and every `add_ballot` call with positive
weight strictly increases it. -/
theorem ballots_drawn_monotone (ops : List (Op α)) (s0 : SenateElection α)
    (hpos : ∀ op ∈ ops, op.posWeight) :
    0 ≤ (run (SenateElection.init α) ops).get_num_ballots_drawn
    ∧ s0.get_num_ballots_drawn ≤ (run s0 ops).get_num_ballots_drawn
    ∧ (∀ (s : SenateElection α) (op : Op α), op.isAddBallot = false →
        ((runOp s op).2).get_num_ballots_drawn = s.get_num_ballots_drawn)
    ∧ (∀ (s : SenateElection α) (b : α) (w : Int), 0 < w →
        s.get_num_ballots_drawn
          < ((runOp s (Op.addBallot b w)).2).get_num_ballots_drawn) := by
  refine ⟨?_, drawn_le_run ops s0 hpos, ?_, ?_⟩
  · exact drawn_le_run ops (SenateElection.init α) hpos
  · intro s op h
    show (runOp s op).2.ballots_drawn = s.ballots_drawn
    rw [runOp_snd_of_not_add s op h]
  · intro s b w hw
    show s.ballots_drawn < s.ballots_drawn + w
    omega

/-- Witness for C6: a single positive-weight `add_ballot`. -/
theorem ballots_drawn_monotone_witness :
    (∀ op ∈ [Op.addBallot (1 : ℕ) 2], op.posWeight)
    ∧ (0 ≤ (run (SenateElection.init ℕ)
          [Op.addBallot (1 : ℕ) 2]).get_num_ballots_drawn
      ∧ (SenateElection.init ℕ).get_num_ballots_drawn
          ≤ (run (SenateElection.init ℕ)
              [Op.addBallot (1 : ℕ) 2]).get_num_ballots_drawn
      ∧ (∀ (s : SenateElection ℕ) (op : Op ℕ), op.isAddBallot = false →
          ((runOp s op).2).get_num_ballots_drawn = s.get_num_ballots_drawn)
      ∧ (∀ (s : SenateElection ℕ) (b : ℕ) (w : Int), 0 < w →
          s.get_num_ballots_drawn
            < ((runOp s (Op.addBallot b w)).2).get_num_ballots_drawn)) :=
  ⟨by decide, ballots_drawn_monotone _ _ (by decide)⟩

/-- C7: every getter has no side effect on the object's state, so calling any
getter twice with no intervening mutator yields identical results. -/
theorem getters_no_side_effect (s : SenateElection α) (op : Op α)
    (h : op.isGetter = true) :
    (runOp s op).2 = s ∧ (runOp (runOp s op).2 op).1 = (runOp s op).1 := by
  have hstate : (runOp s op).2 = s := by
    apply runOp_snd_of_not_add
    cases op <;> first | rfl | simp [Op.isGetter] at h
  exact ⟨hstate, by rw [hstate]⟩

/-- Witness for C7: `get_type` on a fresh object. -/
theorem getters_no_side_effect_witness :
    ((Op.getType : Op ℕ).isGetter = true)
    ∧ ((runOp (SenateElection.init ℕ) Op.getType).2 = SenateElection.init ℕ
      ∧ (runOp (runOp (SenateElection.init ℕ) Op.getType).2 Op.getType).1
          = (runOp (SenateElection.init ℕ) Op.getType).1) :=
  ⟨by decide, getters_no_side_effect _ _ (by decide)⟩

/-- C8: `add_ballot` performs no validation of its weight argument — for every
integer weight, including zero and negative values, it still inserts the
ballot into the drawn-ballot set, adds the weight to that ballot's map entry,
and adds the weight to the drawn total; in particular, after
`add_ballot(b, 0)` on a fresh object, `get_ballots()` contains `b` while
`get_weight_of_ballot(b)` returns `0` and `get_num_ballots_drawn()` returns
`0`. -/
theorem add_ballot_no_weight_validation (s : SenateElection α) (b : α)
    (w : Int) :
    b ∈ (s.add_ballot b w).get_ballots
    ∧ ((s.add_ballot b w).get_weight_of_ballot b).1
        = (s.get_weight_of_ballot b).1 + w
    ∧ (s.add_ballot b w).get_num_ballots_drawn
        = s.get_num_ballots_drawn + w
    ∧ b ∈ ((SenateElection.init α).add_ballot b 0).get_ballots
    ∧ (((SenateElection.init α).add_ballot b 0).get_weight_of_ballot b).1 = 0
    ∧ ((SenateElection.init α).add_ballot b 0).get_num_ballots_drawn = 0 := by
  refine ⟨?_, ?_, rfl, ?_, ?_, ?_⟩
  · exact (mem_pySetAdd s.ballots b b).2 (Or.inr rfl)
  · rw [get_weight_fst, get_weight_fst]
    show (s.ballot_weights.incr b w).get b = _
    rw [Counter.get_incr, if_pos rfl]
  · exact (mem_pySetAdd (SenateElection.init α).ballots b b).2 (Or.inr rfl)
  · rw [get_weight_fst]
    show ((SenateElection.init α).ballot_weights.incr b 0).get b = 0
    rw [Counter.get_incr, if_pos rfl]
    rfl
  · show (0 : Int) + 0 = 0
    rw [add_zero]

/-- C9: `get_weight_of_ballot` leaves the state unchanged even when queried
with a never-added ballot type — the queried key is not inserted into the
weight mapping, and the drawn-ballot set and total are unmodified. -/
theorem get_weight_of_ballot_pure (s : SenateElection α) (b : α) :
    (s.get_weight_of_ballot b).2 = s
    ∧ ((s.get_weight_of_ballot b).2).ballot_weights.keys
        = s.ballot_weights.keys
    ∧ ((s.get_weight_of_ballot b).2).ballots = s.ballots
    ∧ ((s.get_weight_of_ballot b).2).ballots_drawn = s.ballots_drawn := by
  have h := get_weight_snd s b
  exact ⟨h, by rw [h], by rw [h], by rw [h]⟩

/-- C10: on the base `SenateElection` class the class-level `TYPE` tag is
`None`; a freshly constructed object's `get_type()` returns `none`, the tag is
copied from the class attribute at construction time, and no operation changes
it. -/
theorem type_tag_none_and_constant (s : SenateElection α) (op : Op α) :
    SenateElection.TYPE = (none : Option String)
    ∧ (SenateElection.init α).type_ = SenateElection.TYPE
    ∧ (SenateElection.init α).get_type = none
    ∧ (runOp s op).2.get_type = s.get_type := by
  refine ⟨rfl, rfl, rfl, ?_⟩
  cases op
  case getWeightOfBallot b =>
    have hs2 : (runOp s (Op.getWeightOfBallot b)).2 = s := get_weight_snd s b
    rw [hs2]
  all_goals rfl

end AusSenateAudit
